import Mathlib

set_option maxRecDepth 8192

/-!
# Verification of `tools/respecDocWriter.js`

A shallow embedding, in Lean 4, of the logic of the respec document writer:
version-gated export-path selection, the readiness timeout, request
interception for local-script substitution, console-message classification,
the post-navigation HTTP check, the data-URL decoding step, and the timer.

Strings from the JavaScript side are modelled as `List Char`; JavaScript
numbers flowing through `parseInt` and the version comparisons are modelled
by `JSNum` (an integer, `NaN`, or `undefined`).
-/

namespace Respec

/-- Shorthand: the character list of a string literal. -/
def lc (s : String) : List Char := s.toList

/-- JavaScript regex word character class `\w`, i.e. `[A-Za-z0-9_]`. -/
def isWordChar (c : Char) : Bool := c.isAlphanum || c = '_'

/-- The character class `[\w-]` used by both respec-script regexes. -/
def isWordDash (c : Char) : Bool := isWordChar c || c = '-'

/-- `needle` occurs at the start of the second list (JS `String.startsWith`). -/
def startsWithSeq : List Char → List Char → Bool
  | [], _ => true
  | _ :: _, [] => false
  | c :: cs, d :: ds => c = d && startsWithSeq cs ds

/-- `needle` occurs somewhere in the haystack (JS `String.includes`). -/
def containsSeq (needle : List Char) : List Char → Bool
  | [] => startsWithSeq needle []
  | c :: t => startsWithSeq needle (c :: t) || containsSeq needle t

/-- Consume an exact literal from the front of a list, returning the rest. -/
def dropLiteral : List Char → List Char → Option (List Char)
  | [], s => some s
  | _ :: _, [] => none
  | c :: cs, d :: ds => if c = d then dropLiteral cs ds else none

/-- A JavaScript number-or-undefined as it flows through the version logic:
`parseInt` produces an integer or `NaN`, and array destructuring of a short
array produces `undefined`. -/
inductive JSNum where
  | int (n : Int)
  | nan
  | undef
deriving DecidableEq, Repr

/-- JS `<` between such a value and an integer: false on `NaN`/`undefined`. -/
def JSNum.jsLt : JSNum → Int → Bool
  | .int n, m => n < m
  | .nan, _ => false
  | .undef, _ => false

/-- JS `===` between such a value and an integer: false on `NaN`/`undefined`. -/
def JSNum.jsEq : JSNum → Int → Bool
  | .int n, m => n = m
  | .nan, _ => false
  | .undef, _ => false

/-- Decimal value of a digit string. -/
def digitsVal (ds : List Char) : Nat := ds.foldl (fun a c => 10 * a + (c.toNat - 48)) 0

/-- JavaScript `parseInt(s, 10)`: skip leading whitespace, take an optional
sign and then the longest run of decimal digits; `NaN` when there is none
(trailing garbage after the digits is ignored). -/
def jsParseInt (s : List Char) : JSNum :=
  let s1 := s.dropWhile fun c =>
    c = ' ' || c = '\t' || c = '\n' || c = '\r' || c = '\x0b' || c = '\x0c'
  match s1 with
  | '-' :: rest =>
    let ds := rest.takeWhile Char.isDigit
    if ds = [] then .nan else .int (-(digitsVal ds : Int))
  | '+' :: rest =>
    let ds := rest.takeWhile Char.isDigit
    if ds = [] then .nan else .int (digitsVal ds)
  | _ =>
    let ds := s1.takeWhile Char.isDigit
    if ds = [] then .nan else .int (digitsVal ds)

/-- JS `s.split(".")`: dot-separated segments, keeping empty segments, with
at least one segment for any input. -/
def splitOnDot : List Char → List (List Char)
  | [] => [[]]
  | '.' :: t => [] :: splitOnDot t
  | c :: t =>
    match splitOnDot t with
    | seg :: segs => (c :: seg) :: segs
    | [] => [[c]]

/-- `getVersion`, evaluated in the page: the literal sentinel
`"Developer Edition"` becomes the very large triple `[123456789, 0, 0]`;
any other version string is split on `.` and each component run through
`parseInt(str, 10)`. -/
def getVersion (respecVersion : List Char) : List JSNum :=
  if respecVersion = lc "Developer Edition" then [.int 123456789, .int 0, .int 0]
  else (splitOnDot respecVersion).map jsParseInt

/-- The version gate at the top of `evaluateHTML`:
`const [major, minor] = version; major < 20 || (major === 20 && minor < 10)`.
Missing components destructure to `undefined`. -/
def usesLegacy (version : List JSNum) : Bool :=
  let major := version.getD 0 .undef
  let minor := version.getD 1 .undef
  major.jsLt 20 || (major.jsEq 20 && minor.jsLt 10)

/-- The two in-page export entry points `evaluateHTML` can invoke. -/
inductive ExportMethod where
  /-- the old `"ui/save-html"` module's `exportDocument(format, mimeType)` -/
  | saveHtml (format mimeType : List Char)
  /-- the `"core/exporter"` module's `rsDocToDataURL(mimeType)` -/
  | dataURL (mimeType : List Char)
deriving DecidableEq, Repr

/-- Which export call `evaluateHTML` makes, as a function of the parsed
version: the legacy `exportDocument("html", "text/html")` when the gate
fires, otherwise `rsDocToDataURL("text/html")`. -/
def chooseExport (version : List JSNum) : ExportMethod :=
  if usesLegacy version then .saveHtml (lc "html") (lc "text/html")
  else .dataURL (lc "text/html")

/-- Lexicographic strict order on version triples (major, minor, patch). -/
def versionLt (v w : Nat × Nat × Nat) : Prop :=
  v.1 < w.1 ∨ (v.1 = w.1 ∧ (v.2.1 < w.2.1 ∨ (v.2.1 = w.2.1 ∧ v.2.2 < w.2.2)))

instance (v w : Nat × Nat × Nat) : Decidable (versionLt v w) := by
  unfold versionLt; exact inferInstance

lemma usesLegacy_int_triple (a b c : ℕ) :
    usesLegacy [.int a, .int b, .int c] = true ↔ versionLt (a, b, c) (20, 10, 0) := by
  simp [usesLegacy, versionLt, JSNum.jsLt, JSNum.jsEq]
  omega

end Respec

namespace Respec

/-- C1: for every parsed integer version triple, extraction selects the
legacy `exportDocument("html", "text/html")` path exactly when the triple is
lexicographically strictly below `20.10.0`, and the modern
`rsDocToDataURL("text/html")` path exactly otherwise; the
`"Developer Edition"` sentinel parses to the very large triple
`[123456789, 0, 0]` and therefore selects the modern path. -/
theorem versionGate_selects_export_path :
    (∀ a b c : ℕ, chooseExport [.int a, .int b, .int c] = .saveHtml (lc "html") (lc "text/html")
        ↔ versionLt (a, b, c) (20, 10, 0))
    ∧ (∀ a b c : ℕ, chooseExport [.int a, .int b, .int c] = .dataURL (lc "text/html")
        ↔ ¬ versionLt (a, b, c) (20, 10, 0))
    ∧ getVersion (lc "Developer Edition") = [.int 123456789, .int 0, .int 0]
    ∧ chooseExport (getVersion (lc "Developer Edition")) = .dataURL (lc "text/html") := by
  refine ⟨fun a b c => ?_, fun a b c => ?_, by decide, by decide⟩
  · rw [chooseExport, ← usesLegacy_int_triple a b c]
    by_cases h : usesLegacy [.int a, .int b, .int c] = true <;> simp [h]
  · rw [chooseExport, ← usesLegacy_int_triple a b c]
    by_cases h : usesLegacy [.int a, .int b, .int c] = true <;> simp [h]

/-- Witness for C1: version `20.9.0` selects the legacy export path. -/
theorem versionGate_selects_export_path_witness :
    chooseExport [.int 20, .int 9, .int 0] = .saveHtml (lc "html") (lc "text/html") :=
  (versionGate_selects_export_path.1 20 9 0).mpr (by decide)

/-- Modelled from the claim's words: a decimal integer string, i.e. an
optional sign followed by a nonempty run of decimal digits and nothing
else.  Used only to state the counterexample to C10. -/
def isDecimalIntegerString (s : List Char) : Bool :=
  match s with
  | '-' :: t => !t.isEmpty && t.all Char.isDigit
  | '+' :: t => !t.isEmpty && t.all Char.isDigit
  | _ => !s.isEmpty && s.all Char.isDigit

lemma usesLegacy_all_nan (v : List JSNum) (h : ∀ x ∈ v, x = .nan) :
    usesLegacy v = false := by
  cases v with
  | nil => rfl
  | cons a t =>
    have ha : a = .nan := h a (List.mem_cons_self a t)
    subst ha
    simp [usesLegacy, JSNum.jsLt, JSNum.jsEq]

/-- Counterexample to C10 as stated: every dot-separated component of
`"19a.9b.0c"` fails to be a decimal integer, yet `parseInt` still parses
the leading digits, so the version parses to `[19, 9, 0]` (no `NaN`) and
extraction selects the legacy path, not the modern one. -/
theorem parseInt_nonInteger_components_counterexample :
    lc "19a.9b.0c" ≠ lc "Developer Edition"
    ∧ (∀ comp ∈ splitOnDot (lc "19a.9b.0c"), isDecimalIntegerString comp = false)
    ∧ getVersion (lc "19a.9b.0c") = [.int 19, .int 9, .int 0]
    ∧ chooseExport (getVersion (lc "19a.9b.0c")) = .saveHtml (lc "html") (lc "text/html") := by
  decide

/-- C10 (amended): for every version string other than `"Developer Edition"`
whose dot-separated components all parse to `NaN` under `parseInt` (no
component has a parseable leading integer), version parsing yields all-`NaN`
components and extraction selects the modern data-URL path, never the
legacy path. -/
theorem parse_nan_components_selects_modern (s : List Char)
    (hdev : s ≠ lc "Developer Edition")
    (hnan : ∀ comp ∈ splitOnDot s, jsParseInt comp = .nan) :
    getVersion s = (splitOnDot s).map jsParseInt
    ∧ (∀ v ∈ getVersion s, v = .nan)
    ∧ chooseExport (getVersion s) = .dataURL (lc "text/html") := by
  have hg : getVersion s = (splitOnDot s).map jsParseInt := by
    rw [getVersion, if_neg hdev]
  have hall : ∀ v ∈ getVersion s, v = .nan := by
    intro v hv
    rw [hg] at hv
    obtain ⟨comp, hc, rfl⟩ := List.mem_map.1 hv
    exact hnan comp hc
  refine ⟨hg, hall, ?_⟩
  rw [chooseExport, if_neg]
  rw [usesLegacy_all_nan _ hall]
  simp

/-- Witness for C10 (amended): the version string `"x.y"` has all-`NaN`
components and selects the modern path. -/
theorem parse_nan_components_selects_modern_witness :
    chooseExport (getVersion (lc "x.y")) = .dataURL (lc "text/html") :=
  (parse_nan_components_selects_modern (lc "x.y") (by decide) (by decide)).2.2

/-- `createTimer(duration)`: captures the start instant; each read of
`remaining` computes `Math.max(0, duration - (now - start))`. -/
def timerRemaining (duration start now : Int) : Int :=
  max 0 (duration - (now - start))

/-- C8: every read of a timer's `remaining` value is non-negative, and for
two reads at non-decreasing observation instants the later value is less
than or equal to the earlier one. -/
theorem timer_remaining_nonneg_antitone (duration start n1 n2 : Int) (h : n1 ≤ n2) :
    0 ≤ timerRemaining duration start n1
    ∧ timerRemaining duration start n2 ≤ timerRemaining duration start n1 := by
  unfold timerRemaining
  exact ⟨le_max_left _ _, max_le_max le_rfl (by omega)⟩

/-- Witness for C8 at a concrete timer and two concrete reads. -/
theorem timer_remaining_nonneg_antitone_witness :
    0 ≤ timerRemaining 300000 0 100
    ∧ timerRemaining 300000 0 200 ≤ timerRemaining 300000 0 100 :=
  timer_remaining_nonneg_antitone 300000 0 100 200 (by norm_num)

/-- Decimal string of an integer, as JS template interpolation renders it. -/
def intToChars (n : Int) : List Char := lc (toString n)

/-- The message with which the `timeout` helper inside `evaluateHTML`
rejects: it interpolates the millisecond bound it was passed. -/
def timeoutMessage (ms : Int) : List Char :=
  lc "Timeout: document.respecIsReady didn\x27t resolve in " ++ intToChars ms ++ lc "ms."

/-- The bound `evaluateHTML` passes to `timeout` is `timer.remaining`, read
at evaluation time, so the rejection message is a function of the configured
duration, the timer's creation instant and the read instant. -/
def evaluateHTMLTimeoutMessage (duration start now : Int) : List Char :=
  timeoutMessage (timerRemaining duration start now)

/-- Counterexample to C2 as stated: with a configured duration of 300000 ms
and 1000 ms elapsed between timer creation and evaluation, the timeout
message names 299000 ms — the timer's remaining time — and the configured
duration 300000 appears nowhere in it. -/
theorem timeout_message_counterexample :
    evaluateHTMLTimeoutMessage 300000 0 1000 ≠ timeoutMessage 300000
    ∧ containsSeq (lc "299000") (evaluateHTMLTimeoutMessage 300000 0 1000) = true
    ∧ containsSeq (lc "300000") (evaluateHTMLTimeoutMessage 300000 0 1000) = false := by
  decide

/-- C2 (amended): when the readiness promise loses the race, the timeout
error's message names the timer's remaining time at evaluation — the
configured duration minus the time already elapsed, floored at zero — which
never exceeds the configured duration and equals it only when no time has
elapsed (or the duration is zero). -/
theorem timeout_message_names_remaining (duration start now : Int)
    (hd : 0 ≤ duration) (hn : start ≤ now) :
    evaluateHTMLTimeoutMessage duration start now
        = timeoutMessage (max 0 (duration - (now - start)))
    ∧ timerRemaining duration start now ≤ duration
    ∧ (timerRemaining duration start now = duration ↔ now = start ∨ duration = 0) := by
  refine ⟨rfl, ?_, ?_⟩ <;> unfold timerRemaining <;> omega

/-- Witness for C2 (amended) at a concrete duration and elapsed time. -/
theorem timeout_message_names_remaining_witness :
    evaluateHTMLTimeoutMessage 300000 0 1000
        = timeoutMessage (max 0 (300000 - (1000 - 0)))
    ∧ timerRemaining 300000 0 1000 ≤ 300000
    ∧ (timerRemaining 300000 0 1000 = 300000 ↔ (1000 : Int) = 0 ∨ (300000 : Int) = 0) :=
  timeout_message_names_remaining 300000 0 1000 (by norm_num) (by norm_num)

/-! ## Console colors (`colors.setTheme`: warn ↦ yellow, debug ↦ cyan,
error ↦ red) — the package wraps a string in ANSI color/reset codes. -/

/-- `colors.warn`: yellow. -/
def colorsWarn (s : List Char) : List Char := lc "\x1b[33m" ++ s ++ lc "\x1b[39m"

/-- `colors.debug`: cyan. -/
def colorsDebug (s : List Char) : List Char := lc "\x1b[36m" ++ s ++ lc "\x1b[39m"

/-- `colors.error`: red. -/
def colorsError (s : List Char) : List Char := lc "\x1b[31m" ++ s ++ lc "\x1b[39m"

/-- The parts of a parsed `URL` object that `fetchAndWrite` reads. -/
structure JSURL where
  origin : List Char
  pathname : List Char
  search : List Char
deriving DecidableEq, Repr

/-- The parts of the puppeteer navigation response that `fetchAndWrite`
reads: `response.ok()` and `response.status()`. -/
structure HTTPResponse where
  ok : Bool
  status : Nat
deriving DecidableEq, Repr

/-- The HTTP error message `fetchAndWrite` throws:
``colors.warn(`📡 HTTP Error ${status}:`)`` followed by a space and
`colors.debug(url.origin + url.pathname)` — the query string is omitted. -/
def httpErrorMessage (status : Nat) (url : JSURL) : List Char :=
  colorsWarn (lc "📡 HTTP Error " ++ lc (toString status) ++ lc ":") ++ lc " "
    ++ colorsDebug (url.origin ++ url.pathname)

/-- The post-navigation check in `fetchAndWrite`: it throws exactly when
`!response.ok() && response.status()` — a zero status is truthy-false and
therefore treated as success (local file loads). -/
def navigationCheck (response : HTTPResponse) (url : JSURL) : Option (List Char) :=
  if response.ok = false ∧ response.status ≠ 0 then
    some (httpErrorMessage response.status url)
  else none

/-- C5: after navigation the run fails with an HTTP-error message iff the
response is not ok and has a nonzero status; the message contains the URL's
origin and pathname, and is independent of the URL's query string. -/
theorem navigation_http_error_check (response : HTTPResponse) (url : JSURL) :
    ((navigationCheck response url).isSome = true
        ↔ response.ok = false ∧ response.status ≠ 0)
    ∧ (∀ m, navigationCheck response url = some m →
        ∃ s t, m = s ++ (url.origin ++ url.pathname) ++ t)
    ∧ (∀ search2, navigationCheck response url
        = navigationCheck response ⟨url.origin, url.pathname, search2⟩) := by
  refine ⟨?_, ?_, fun search2 => rfl⟩
  · unfold navigationCheck
    split <;> simp_all
  · intro m hm
    unfold navigationCheck at hm
    split at hm
    · refine ⟨colorsWarn (lc "📡 HTTP Error " ++ lc (toString response.status) ++ lc ":")
        ++ lc " " ++ lc "\x1b[36m", lc "\x1b[39m", ?_⟩
      obtain rfl : httpErrorMessage response.status url = m := by
        injection hm
      simp [httpErrorMessage, colorsDebug]
    · exact absurd hm (by simp)

/-- A sample URL whose query string carries a secret. -/
def sampleURL : JSURL := ⟨lc "https://example.com", lc "/spec/", lc "?key=secret"⟩

/-- Witness for C5: a 404 response produces a message that contains
origin ++ pathname of the sample URL. -/
theorem navigation_http_error_check_witness :
    ∃ s t, httpErrorMessage 404 sampleURL
        = s ++ (sampleURL.origin ++ sampleURL.pathname) ++ t :=
  (navigation_http_error_check ⟨false, 404⟩ sampleURL).2.1
    (httpErrorMessage 404 sampleURL) (by decide)

/-! ## Console relay (`makeConsoleMsgHandler`) -/

/-- A console event as the handler sees it: `message.type()`,
`message.text()` (the raw text), and the already-stringified arguments
(each JSHandle resolved via `String(o)` in page context). -/
structure ConsoleMsg where
  type : List Char
  msgText : List Char
  args : List (List Char)
deriving DecidableEq, Repr

/-- `args.filter(msg => msg !== "undefined").join(" ")`. -/
def consoleText (m : ConsoleMsg) : List Char :=
  List.intercalate (lc " ") (m.args.filter (fun a => a ≠ lc "undefined"))

/-- What one console event does: what gets printed, and which halt flags the
handler sets. -/
structure ConsoleEffect where
  printed : Option (List Char)
  error : Bool
  warn : Bool
deriving DecidableEq, Repr

/-- No output, no flag. -/
def noConsoleEffect : ConsoleEffect := ⟨none, false, false⟩

/-- The body of the `page.on("console", ...)` listener: browser-internal
noise (error/warning with raw text but no structured arguments) is dropped;
errors print with an alarm marker and set the error flag; warnings matching
the `document.respecDone` polling expression are dropped, other warnings
print with a warning marker and set the warn flag; all other types do
nothing. -/
def handleConsoleMessage (m : ConsoleMsg) : ConsoleEffect :=
  if (m.type = lc "error" ∨ m.type = lc "warning") ∧ m.msgText ≠ [] ∧ m.args = [] then
    noConsoleEffect
  else
    let output := lc "ReSpec " ++ m.type ++ lc ": " ++ colorsDebug (consoleText m)
    if m.type = lc "error" then
      ⟨some (colorsError (lc "😱 " ++ output)), true, false⟩
    else if m.type = lc "warning" then
      if containsSeq (lc "document.respecDone") (consoleText m) then noConsoleEffect
      else ⟨some (colorsWarn (lc "🚨 " ++ output)), false, true⟩
    else noConsoleEffect

/-- C4: (1) an error/warning event with non-empty raw text and no structured
arguments is suppressed entirely; (2) a warning whose resolved text contains
`document.respecDone` is suppressed and sets no flag; (3) any other error
sets exactly the error flag; (4) any other warning sets exactly the warn
flag; (5) events of any other severity set no flag and print nothing. -/
theorem console_handler_classification :
    (∀ m : ConsoleMsg, (m.type = lc "error" ∨ m.type = lc "warning") →
        m.msgText ≠ [] → m.args = [] → handleConsoleMessage m = noConsoleEffect)
    ∧ (∀ m : ConsoleMsg, m.type = lc "warning" →
        containsSeq (lc "document.respecDone") (consoleText m) = true →
        handleConsoleMessage m = noConsoleEffect)
    ∧ (∀ m : ConsoleMsg, m.type = lc "error" → ¬(m.msgText ≠ [] ∧ m.args = []) →
        (handleConsoleMessage m).error = true ∧ (handleConsoleMessage m).warn = false
          ∧ (handleConsoleMessage m).printed.isSome = true)
    ∧ (∀ m : ConsoleMsg, m.type = lc "warning" → ¬(m.msgText ≠ [] ∧ m.args = []) →
        containsSeq (lc "document.respecDone") (consoleText m) = false →
        (handleConsoleMessage m).warn = true ∧ (handleConsoleMessage m).error = false
          ∧ (handleConsoleMessage m).printed.isSome = true)
    ∧ (∀ m : ConsoleMsg, m.type ≠ lc "error" → m.type ≠ lc "warning" →
        handleConsoleMessage m = noConsoleEffect) := by
  refine ⟨?_, ?_, ?_, ?_, ?_⟩ <;> intro m
  · intro h1 h2 h3
    rw [handleConsoleMessage, if_pos ⟨h1, h2, h3⟩]
  · intro hw hdone
    simp +decide [handleConsoleMessage, hw, hdone]
  · intro he hnoise
    simp +decide [handleConsoleMessage, he, hnoise]
  · intro hw hnoise hdone
    simp +decide [handleConsoleMessage, hw, hnoise, hdone]
  · intro he hw
    simp +decide [handleConsoleMessage, he, hw]

/-- Witness for C4: a CORS-style error with raw text and no structured
arguments is suppressed entirely. -/
theorem console_handler_classification_witness :
    handleConsoleMessage ⟨lc "error", lc "Access to font blocked by CORS policy", []⟩
      = noConsoleEffect :=
  console_handler_classification.1 _ (Or.inl rfl) (by decide) rfl

/-! ## Local-script interception (`useLocalReSpec`) -/

/-- `[\w-]*\.js` consuming the whole list. -/
def wordDashJs (t : List Char) : Bool :=
  if t = lc ".js" then true
  else
    match t with
    | c :: t2 => isWordDash c && wordDashJs t2
    | [] => false

/-- `[\w-]+\.js` consuming the whole list. -/
def wordDashPlusJs (t : List Char) : Bool :=
  match t with
  | c :: t2 => isWordDash c && wordDashJs t2
  | [] => false

/-- The regex `/\/builds\/respec-[\w-]+\.js$/` matching at this position
(the rest of the list must be exactly `/builds/respec-` ++ w ++ `.js`). -/
def buildsRespecAt (p : List Char) : Bool :=
  match dropLiteral (lc "/builds/respec-") p with
  | some t => wordDashPlusJs t
  | none => false

/-- `/\/builds\/respec-[\w-]+\.js$/.test(pathname)`: some start position
matches. -/
def buildsRespecTest (p : List Char) : Bool :=
  buildsRespecAt p ||
    match p with
    | [] => false
    | _ :: t => buildsRespecTest t

/-- The fields of a puppeteer request that the interceptor reads. -/
structure Request where
  method : List Char
  resourceType : List Char
  host : List Char
  pathname : List Char
deriving DecidableEq, Repr

/-- `isRespecScript` from `useLocalReSpec`: only GET requests of resource
type script; then per host — `www.w3.org` wants the `/Tools/respec/` path
without the `respec-highlight` variant, `w3c.github.io` wants the
`/respec/builds/` path, and every other host is matched against the
builds-filename regex. -/
def isRespecScript (req : Request) : Bool :=
  if req.method ≠ lc "GET" ∨ req.resourceType ≠ lc "script" then false
  else if req.host = lc "www.w3.org" then
    startsWithSeq (lc "/Tools/respec/") req.pathname
      && !containsSeq (lc "respec-highlight") req.pathname
  else if req.host = lc "w3c.github.io" then
    startsWithSeq (lc "/respec/builds/") req.pathname
  else
    buildsRespecTest req.pathname

/-- `[\w-]*` then an optional `.js`, consuming the whole list; returns the
word-dash part when it matches. -/
def wordDashOptJs (t : List Char) : Option (List Char) :=
  if t = lc ".js" then some []
  else
    match t with
    | [] => some []
    | c :: t2 => if isWordDash c then (wordDashOptJs t2).map (c :: ·) else none

/-- The regex `/\/(respec-[\w-]+)(?:\.js)?$/` matching at this position:
the rest of the list must be `/respec-` ++ w (++ `.js`) with w nonempty;
the value is capture group 1, `respec-` ++ w. -/
def respecProfileAt (p : List Char) : Option (List Char) :=
  match dropLiteral (lc "/respec-") p with
  | some t =>
    match wordDashOptJs t with
    | some w => if w = [] then none else some (lc "respec-" ++ w)
    | none => none
  | none => none

/-- `pathname.match(respecProfileRegex)` restricted to capture group 1:
the leftmost position where the regex matches, or `none` when the match is
`null`. -/
def respecProfileMatch (p : List Char) : Option (List Char) :=
  match respecProfileAt p with
  | some w => some w
  | none =>
    match p with
    | [] => none
    | _ :: t => respecProfileMatch t

/-- What one invocation of the `"request"` listener does with a request. -/
inductive InterceptOutcome where
  | continueRequest
  | respondLocal (profile : List Char)
  | crash
deriving DecidableEq, Repr

/-- The `requestInterceptor` listener body: non-matching requests are passed
through via `request.continue()`; for a matching request the profile is read
with `url.pathname.match(respecProfileRegex)[1]` — when the match is `null`
the indexing throws, so neither branch runs. -/
def requestInterceptor (req : Request) : InterceptOutcome :=
  if isRespecScript req = false then .continueRequest
  else
    match respecProfileMatch req.pathname with
    | some profile => .respondLocal profile
    | none => .crash

/-- C9: a GET script request to `www.w3.org` whose path starts with
`/Tools/respec/` but whose final segment does not start with `respec-` is
accepted by `isRespecScript`, yet the profile regex does not match, so the
handler crashes: it neither substitutes the local build nor passes the
request through. -/
theorem accepted_request_can_crash_interceptor :
    isRespecScript ⟨lc "GET", lc "script", lc "www.w3.org", lc "/Tools/respec/main.js"⟩ = true
    ∧ respecProfileMatch (lc "/Tools/respec/main.js") = none
    ∧ requestInterceptor ⟨lc "GET", lc "script", lc "www.w3.org", lc "/Tools/respec/main.js"⟩
        = .crash := by
  decide

/-- How the run answered one request. -/
inductive RequestResult where
  | substituted (profile : List Char)
  | continued
  | passedThrough
  | crashed
deriving DecidableEq, Repr

/-- Did this request get answered with the substituted local build? -/
def RequestResult.isSubstituted : RequestResult → Bool
  | .substituted _ => true
  | _ => false

/-- Trace semantics of `useLocalReSpec` over a run's requests in arrival
order: while the listener is armed the interceptor decides (a crash leaves
it armed — the removal never runs); a substitution removes the listener and
disables interception, after which every request passes through
unmodified. -/
def runIntercept (listenerArmed : Bool) : List Request → List RequestResult
  | [] => []
  | r :: rs =>
    if listenerArmed then
      match requestInterceptor r with
      | .continueRequest => .continued :: runIntercept true rs
      | .respondLocal p => .substituted p :: runIntercept false rs
      | .crash => .crashed :: runIntercept true rs
    else .passedThrough :: runIntercept false rs

lemma runIntercept_disarmed (rs : List Request) :
    runIntercept false rs = List.replicate rs.length RequestResult.passedThrough := by
  induction rs with
  | nil => rfl
  | cons r rs ih => simp [runIntercept, ih, List.replicate_succ]

lemma countP_replicate_passed (n : ℕ) :
    (List.replicate n RequestResult.passedThrough).countP RequestResult.isSubstituted
      = 0 := by
  rw [List.countP_eq_zero]
  intro a ha
  rw [List.eq_of_mem_replicate ha]
  decide

/-- C7: in one run with interception armed, at most one request is ever
answered with the substituted local build, and every request after the
substitution passes through unmodified. -/
theorem interception_at_most_one_substitution (reqs : List Request) :
    ((runIntercept true reqs).countP RequestResult.isSubstituted ≤ 1)
    ∧ ∀ l1 p l2, runIntercept true reqs = l1 ++ RequestResult.substituted p :: l2 →
        ∀ r ∈ l2, r = RequestResult.passedThrough := by
  induction reqs with
  | nil =>
    refine ⟨by simp [runIntercept], ?_⟩
    intro l1 p l2 h
    rw [runIntercept] at h
    exact absurd h.symm (by simp)
  | cons r rs ih =>
    cases hout : requestInterceptor r with
    | continueRequest =>
      have hrun : runIntercept true (r :: rs)
          = RequestResult.continued :: runIntercept true rs := by
        simp [runIntercept, hout]
      refine ⟨?_, ?_⟩
      · rw [hrun]
        simpa [List.countP_cons, RequestResult.isSubstituted] using ih.1
      · intro l1 p l2 h
        rw [hrun] at h
        cases l1 with
        | nil => simp at h
        | cons x l1' =>
          rw [List.cons_append] at h
          injection h with h1 h2
          exact ih.2 l1' p l2 h2
    | crash =>
      have hrun : runIntercept true (r :: rs)
          = RequestResult.crashed :: runIntercept true rs := by
        simp [runIntercept, hout]
      refine ⟨?_, ?_⟩
      · rw [hrun]
        simpa [List.countP_cons, RequestResult.isSubstituted] using ih.1
      · intro l1 p l2 h
        rw [hrun] at h
        cases l1 with
        | nil => simp at h
        | cons x l1' =>
          rw [List.cons_append] at h
          injection h with h1 h2
          exact ih.2 l1' p l2 h2
    | respondLocal q =>
      have hrun : runIntercept true (r :: rs)
          = RequestResult.substituted q :: runIntercept false rs := by
        simp [runIntercept, hout]
      refine ⟨?_, ?_⟩
      · rw [hrun, runIntercept_disarmed]
        simp [List.countP_cons, RequestResult.isSubstituted, countP_replicate_passed]
      · intro l1 p l2 h
        rw [hrun, runIntercept_disarmed] at h
        cases l1 with
        | nil =>
          injection h with h1 h2
          intro rr hrr
          rw [← h2] at hrr
          exact List.eq_of_mem_replicate hrr
        | cons x l1' =>
          rw [List.cons_append] at h
          injection h with h1 h2
          have hmem : RequestResult.substituted p
              ∈ List.replicate rs.length RequestResult.passedThrough := by
            rw [h2]
            exact List.mem_append_right _ (List.mem_cons_self _ _)
          have := List.eq_of_mem_replicate hmem
          simp at this

/-- A request the interceptor answers with the local build. -/
def reqBuildGood : Request :=
  ⟨lc "GET", lc "script", lc "w3c.github.io", lc "/respec/builds/respec-w3c.js"⟩

/-- A request the interception rule does not match. -/
def reqImage : Request := ⟨lc "GET", lc "image", lc "example.com", lc "/logo.png"⟩

/-- Witness for C7 on a concrete two-request run: the first request is
substituted, and everything after the substitution passes through. -/
theorem interception_at_most_one_substitution_witness :
    ((runIntercept true [reqBuildGood, reqImage]).countP RequestResult.isSubstituted ≤ 1)
    ∧ ∀ r ∈ [RequestResult.passedThrough], r = RequestResult.passedThrough :=
  ⟨(interception_at_most_one_substitution [reqBuildGood, reqImage]).1,
   (interception_at_most_one_substitution [reqBuildGood, reqImage]).2 []
      (lc "respec-w3c") [RequestResult.passedThrough] (by decide)⟩

/-! ## Structural characterizations of the matchers, for C3 -/

lemma startsWithSeq_iff (pre s : List Char) :
    startsWithSeq pre s = true ↔ ∃ t, s = pre ++ t := by
  induction pre generalizing s with
  | nil => simp [startsWithSeq]
  | cons c cs ih =>
    cases s with
    | nil => simp [startsWithSeq]
    | cons d ds =>
      simp only [startsWithSeq, Bool.and_eq_true, decide_eq_true_eq, List.cons_append,
        List.cons.injEq, ih]
      constructor
      · rintro ⟨rfl, t, rfl⟩
        exact ⟨t, rfl, rfl⟩
      · rintro ⟨t, rfl, rfl⟩
        exact ⟨rfl, t, rfl⟩

lemma containsSeq_iff (n s : List Char) :
    containsSeq n s = true ↔ ∃ u v, s = u ++ n ++ v := by
  induction s with
  | nil =>
    simp only [containsSeq, startsWithSeq_iff]
    constructor
    · rintro ⟨t, ht⟩
      exact ⟨[], t, by simpa using ht⟩
    · rintro ⟨u, v, huv⟩
      rcases List.append_eq_nil.1 huv.symm with ⟨h1, rfl⟩
      rcases List.append_eq_nil.1 h1 with ⟨rfl, rfl⟩
      exact ⟨[], by simp⟩
  | cons c t ih =>
    simp only [containsSeq, Bool.or_eq_true, startsWithSeq_iff, ih]
    constructor
    · rintro (⟨r, hr⟩ | ⟨u, v, hv⟩)
      · exact ⟨[], r, by simpa using hr⟩
      · exact ⟨c :: u, v, by simp [hv]⟩
    · rintro ⟨u, v, huv⟩
      cases u with
      | nil => exact Or.inl ⟨v, by simpa using huv⟩
      | cons x u' =>
        rw [List.cons_append, List.cons_append] at huv
        injection huv with h1 h2
        exact Or.inr ⟨u', v, h2⟩

lemma wordDashJs_iff (t : List Char) :
    wordDashJs t = true ↔ ∃ w, (∀ c ∈ w, isWordDash c = true) ∧ t = w ++ lc ".js" := by
  induction t with
  | nil =>
    rw [wordDashJs, if_neg (by decide)]
    constructor
    · intro h
      exact (Bool.false_ne_true h).elim
    · rintro ⟨w, hall, h⟩
      exact absurd h (by simp +decide)
  | cons c t2 ih =>
    rw [wordDashJs]
    by_cases hjs : c :: t2 = lc ".js"
    · rw [if_pos hjs]
      simp only [true_iff]
      exact ⟨[], by simp, by simpa using hjs⟩
    · rw [if_neg hjs]
      simp only [Bool.and_eq_true, ih]
      constructor
      · rintro ⟨hc, w, hall, rfl⟩
        exact ⟨c :: w, by simpa [hc] using hall, rfl⟩
      · rintro ⟨w, hall, hw⟩
        cases w with
        | nil => exact absurd (by simpa using hw) hjs
        | cons x w' =>
          rw [List.cons_append] at hw
          injection hw with h1 h2
          subst h1
          exact ⟨hall c (List.mem_cons_self _ _),
            w', fun d hd => hall d (List.mem_cons_of_mem _ hd), h2⟩

lemma wordDashPlusJs_iff (t : List Char) :
    wordDashPlusJs t = true ↔
      ∃ w, w ≠ [] ∧ (∀ c ∈ w, isWordDash c = true) ∧ t = w ++ lc ".js" := by
  cases t with
  | nil =>
    rw [wordDashPlusJs]
    constructor
    · intro h
      exact (Bool.false_ne_true h).elim
    · rintro ⟨w, hne, hall, h⟩
      exact absurd h (by simp +decide)
  | cons c t2 =>
    rw [wordDashPlusJs]
    simp only [Bool.and_eq_true, wordDashJs_iff]
    constructor
    · rintro ⟨hc, w, hall, rfl⟩
      exact ⟨c :: w, by simp, by simpa [hc] using hall, rfl⟩
    · rintro ⟨w, hne, hall, hw⟩
      cases w with
      | nil => exact absurd rfl hne
      | cons x w' =>
        rw [List.cons_append] at hw
        injection hw with h1 h2
        subst h1
        exact ⟨hall c (List.mem_cons_self _ _),
          w', fun d hd => hall d (List.mem_cons_of_mem _ hd), h2⟩

lemma dropLiteral_eq_some (pre s t : List Char) :
    dropLiteral pre s = some t ↔ s = pre ++ t := by
  induction pre generalizing s with
  | nil =>
    rw [dropLiteral]
    simp
  | cons c cs ih =>
    cases s with
    | nil => simp [dropLiteral]
    | cons d ds =>
      rw [dropLiteral]
      by_cases h : c = d
      · subst h
        simp [ih]
      · rw [if_neg h]
        simp [Ne.symm h]

lemma buildsRespecAt_iff (p : List Char) :
    buildsRespecAt p = true ↔
      ∃ w, w ≠ [] ∧ (∀ c ∈ w, isWordDash c = true)
        ∧ p = lc "/builds/respec-" ++ w ++ lc ".js" := by
  rw [buildsRespecAt]
  cases hd : dropLiteral (lc "/builds/respec-") p with
  | none =>
    constructor
    · intro h
      exact absurd h (by simp)
    · rintro ⟨w, hne, hall, rfl⟩
      have : dropLiteral (lc "/builds/respec-")
          (lc "/builds/respec-" ++ w ++ lc ".js") = some (w ++ lc ".js") :=
        (dropLiteral_eq_some _ _ _).2 (by simp)
      rw [this] at hd
      exact absurd hd (by simp)
  | some t =>
    have hp : p = lc "/builds/respec-" ++ t := (dropLiteral_eq_some _ _ _).1 hd
    subst hp
    rw [wordDashPlusJs_iff]
    constructor
    · rintro ⟨w, hne, hall, rfl⟩
      exact ⟨w, hne, hall, by simp⟩
    · rintro ⟨w, hne, hall, heq⟩
      refine ⟨w, hne, hall, ?_⟩
      have := heq
      rw [List.append_assoc] at this
      exact (List.append_cancel_left this : t = w ++ lc ".js")

lemma buildsRespecTest_iff (p : List Char) :
    buildsRespecTest p = true ↔ ∃ u v, p = u ++ v ∧ buildsRespecAt v = true := by
  induction p with
  | nil =>
    rw [buildsRespecTest]
    constructor
    · intro h
      exact absurd h (by decide)
    · rintro ⟨u, v, huv, hat⟩
      rcases List.append_eq_nil.1 huv.symm with ⟨rfl, rfl⟩
      exact absurd hat (by decide)
  | cons c t ih =>
    rw [buildsRespecTest]
    simp only [Bool.or_eq_true, ih]
    constructor
    · rintro (h | ⟨u, v, rfl, hat⟩)
      · exact ⟨[], c :: t, by simp, h⟩
      · exact ⟨c :: u, v, by simp, hat⟩
    · rintro ⟨u, v, huv, hat⟩
      cases u with
      | nil => exact Or.inl (by simpa using huv ▸ hat)
      | cons x u' =>
        rw [List.cons_append] at huv
        injection huv with h1 h2
        exact Or.inr ⟨u', v, h2, hat⟩

lemma buildsRespecTest_decomp (p : List Char) :
    buildsRespecTest p = true ↔
      ∃ u w, w ≠ [] ∧ (∀ c ∈ w, isWordDash c = true)
        ∧ p = u ++ lc "/builds/respec-" ++ w ++ lc ".js" := by
  rw [buildsRespecTest_iff]
  constructor
  · rintro ⟨u, v, rfl, hat⟩
    obtain ⟨w, hne, hall, rfl⟩ := (buildsRespecAt_iff v).1 hat
    exact ⟨u, w, hne, hall, by simp⟩
  · rintro ⟨u, w, hne, hall, rfl⟩
    refine ⟨u, lc "/builds/respec-" ++ w ++ lc ".js", by simp, ?_⟩
    exact (buildsRespecAt_iff _).2 ⟨w, hne, hall, rfl⟩

lemma containsSeq_eq_false_iff (n s : List Char) :
    containsSeq n s = false ↔ ¬ ∃ u v, s = u ++ n ++ v := by
  rw [← containsSeq_iff]
  cases containsSeq n s <;> simp

/-- The path's filename: its last `/`-separated segment. -/
def lastSegment (p : List Char) : List Char :=
  (p.reverse.takeWhile (fun c => c ≠ '/')).reverse

/-- Modelled from the claim's words: the default-host rule as the claim
states it — the path's filename matches the pattern
`respec-<identifier>.js` at the end of the path (with no requirement on the
directory containing it).  Used only to state the counterexample to C3. -/
def claimedDefaultHostRule (p : List Char) : Bool :=
  match dropLiteral (lc "respec-") (lastSegment p) with
  | some t => wordDashPlusJs t
  | none => false

/-- Counterexample to C3 as stated: a GET script request to `example.com`
for `/respec-w3c.js` has a filename matching `respec-<identifier>.js` at the
end of the path, yet `isRespecScript` rejects it — the code's regex demands
a `/builds/` directory immediately before the filename. -/
theorem interception_default_rule_counterexample :
    claimedDefaultHostRule (lc "/respec-w3c.js") = true
    ∧ isRespecScript ⟨lc "GET", lc "script", lc "example.com", lc "/respec-w3c.js"⟩
        = false := by
  decide

/-- C3 (amended): the interception predicate accepts a request iff it is a
GET request of resource type script and: for host `www.w3.org` the path
starts with `/Tools/respec/` and does not contain `respec-highlight`; for
host `w3c.github.io` the path starts with `/respec/builds/`; for any other
host the path ends with `/builds/respec-<identifier>.js` (the filename
pattern must sit in a `/builds/` directory).  All requests the predicate
rejects are passed through unmodified. -/
theorem isRespecScript_characterization (req : Request) :
    (isRespecScript req = true ↔
      req.method = lc "GET" ∧ req.resourceType = lc "script" ∧
      ((req.host = lc "www.w3.org"
          ∧ (∃ t, req.pathname = lc "/Tools/respec/" ++ t)
          ∧ ¬ ∃ u v, req.pathname = u ++ lc "respec-highlight" ++ v)
       ∨ (req.host = lc "w3c.github.io"
          ∧ ∃ t, req.pathname = lc "/respec/builds/" ++ t)
       ∨ (req.host ≠ lc "www.w3.org" ∧ req.host ≠ lc "w3c.github.io"
          ∧ ∃ u w, w ≠ [] ∧ (∀ c ∈ w, isWordDash c = true)
              ∧ req.pathname = u ++ lc "/builds/respec-" ++ w ++ lc ".js")))
    ∧ (isRespecScript req = false → requestInterceptor req = .continueRequest) := by
  constructor
  · rw [isRespecScript]
    by_cases hm : req.method = lc "GET"
    case neg => simp [hm]
    by_cases hr : req.resourceType = lc "script"
    case neg => simp [hm, hr]
    rw [if_neg (by simp [hm, hr])]
    by_cases hw3 : req.host = lc "www.w3.org"
    · rw [if_pos hw3]
      simp +decide [hm, hr, hw3, startsWithSeq_iff, containsSeq_eq_false_iff,
        Bool.and_eq_true, Bool.not_eq_true']
    · by_cases hgh : req.host = lc "w3c.github.io"
      · rw [if_neg hw3, if_pos hgh]
        simp +decide [hm, hr, hw3, hgh, startsWithSeq_iff]
      · rw [if_neg hw3, if_neg hgh]
        simp [hm, hr, hw3, hgh, buildsRespecTest_decomp]
  · intro hfalse
    rw [requestInterceptor, if_pos hfalse]

/-! ## Data-URL decoding (the modern export path), for C6 -/

/-- Value of a hex digit character; `decodeURIComponent` accepts both
cases. -/
def hexDigitVal (c : Char) : Option Nat :=
  if '0' ≤ c ∧ c ≤ '9' then some (c.toNat - 48)
  else if 'A' ≤ c ∧ c ≤ 'F' then some (c.toNat - 55)
  else if 'a' ≤ c ∧ c ≤ 'f' then some (c.toNat - 87)
  else none

/-- Uppercase hex digit for `d < 16`, as `encodeURIComponent` emits. -/
def hexDigitChar (d : Nat) : Char :=
  if d < 10 then Char.ofNat (48 + d) else Char.ofNat (55 + d)

/-- The `%XY` escape of one byte. -/
def escapeByte (b : Nat) : List Char :=
  ['%', hexDigitChar (b / 16), hexDigitChar (b % 16)]

/-- The UTF-8 bytes of one Unicode scalar value. -/
def utf8Bytes (n : Nat) : List Nat :=
  if n < 0x80 then [n]
  else if n < 0x800 then [0xC0 + n / 64, 0x80 + n % 64]
  else if n < 0x10000 then [0xE0 + n / 4096, 0x80 + n / 64 % 64, 0x80 + n % 64]
  else [0xF0 + n / 262144, 0x80 + n / 4096 % 64, 0x80 + n / 64 % 64, 0x80 + n % 64]

/-- The characters `encodeURIComponent` leaves unescaped. -/
def isURIUnreserved (c : Char) : Bool :=
  c.isAlphanum || c = '-' || c = '_' || c = '.' || c = '!' || c = '~' || c = '*'
    || c = '\x27' || c = '(' || c = ')'

/-- Modelled from the spec: the percent-encoding of one character of the
HTML text — JavaScript `encodeURIComponent` keeps unreserved characters and
escapes each UTF-8 byte of every other character.  The producer of the data
URL, ReSpec's `rsDocToDataURL`, lives in ReSpec itself, not in this
repository; only its decoding counterpart (lines 273-275) is in scope. -/
def percentEncodeChar (c : Char) : List Char :=
  if isURIUnreserved c then [c]
  else ((utf8Bytes c.toNat).map escapeByte).flatten

/-- Modelled from the spec: the percent-encoding (`encodeURIComponent`)
of the HTML text. -/
def percentEncode (s : List Char) : List Char :=
  (s.map percentEncodeChar).flatten

/-- The byte value of the two hex digits of a `%XY` escape. -/
def escVal (h1 h2 : Char) : Option Nat :=
  match hexDigitVal h1, hexDigitVal h2 with
  | some x, some y => some (16 * x + y)
  | _, _ => none

/-- A token of the decoding pipeline: a character that stood for itself, or
the byte value of one `%XY` escape. -/
inductive PDTok where
  | raw (c : Char)
  | byte (b : Nat)
deriving DecidableEq, Repr

/-- First stage of `decodeURIComponent`: read every `%XY` escape into a
byte token (failing on a malformed escape), leave other characters as raw
tokens. -/
def tokenizePercent : List Char → Option (List PDTok)
  | [] => some []
  | '%' :: h1 :: h2 :: rest =>
    (escVal h1 h2).bind fun b =>
      (tokenizePercent rest).map (fun ts => PDTok.byte b :: ts)
  | '%' :: _ => none
  | c :: rest => (tokenizePercent rest).map (fun ts => PDTok.raw c :: ts)

/-- A UTF-8 continuation: a byte token in `[0x80, 0xC0)`; its payload. -/
def utf8Cont : PDTok → Option Nat
  | .byte b => if 0x80 ≤ b ∧ b < 0xC0 then some (b - 0x80) else none
  | .raw _ => none

/-- One continuation byte after a two-byte leading byte `b1`. -/
def utf8Cont2 (b1 : Nat) : List PDTok → Option (Nat × List PDTok)
  | t2 :: rest2 => (utf8Cont t2).map fun v2 => ((b1 - 0xC0) * 64 + v2, rest2)
  | [] => none

/-- Two continuation bytes after a three-byte leading byte `b1`; overlong
encodings and surrogates are rejected. -/
def utf8Cont3 (b1 : Nat) : List PDTok → Option (Nat × List PDTok)
  | t2 :: t3 :: rest2 =>
    (utf8Cont t2).bind fun v2 =>
      (utf8Cont t3).bind fun v3 =>
        if 0x800 ≤ (b1 - 0xE0) * 4096 + v2 * 64 + v3
            ∧ ¬(0xD800 ≤ (b1 - 0xE0) * 4096 + v2 * 64 + v3
                ∧ (b1 - 0xE0) * 4096 + v2 * 64 + v3 ≤ 0xDFFF) then
          some ((b1 - 0xE0) * 4096 + v2 * 64 + v3, rest2)
        else none
  | _ => none

/-- Three continuation bytes after a four-byte leading byte `b1`; overlong
encodings and values beyond `0x10FFFF` are rejected. -/
def utf8Cont4 (b1 : Nat) : List PDTok → Option (Nat × List PDTok)
  | t2 :: t3 :: t4 :: rest2 =>
    (utf8Cont t2).bind fun v2 =>
      (utf8Cont t3).bind fun v3 =>
        (utf8Cont t4).bind fun v4 =>
          if 0x10000 ≤ (b1 - 0xF0) * 262144 + v2 * 4096 + v3 * 64 + v4
              ∧ (b1 - 0xF0) * 262144 + v2 * 4096 + v3 * 64 + v4 < 0x110000 then
            some ((b1 - 0xF0) * 262144 + v2 * 4096 + v3 * 64 + v4, rest2)
          else none
  | _ => none

/-- One UTF-8 sequence, after its leading byte `b1`: classify the length
from `b1`, consume and validate the continuation byte tokens, and return
the code point with the remaining tokens. -/
def utf8Step (b1 : Nat) (rest : List PDTok) : Option (Nat × List PDTok) :=
  if b1 < 0x80 then some (b1, rest)
  else if b1 < 0xC2 then none
  else if b1 < 0xE0 then utf8Cont2 b1 rest
  else if b1 < 0xF0 then utf8Cont3 b1 rest
  else if b1 < 0xF5 then utf8Cont4 b1 rest
  else none

lemma utf8Cont2_length (b1 : Nat) (rest : List PDTok) (n : Nat) (r : List PDTok)
    (h : utf8Cont2 b1 rest = some (n, r)) : r.length ≤ rest.length := by
  cases rest with
  | nil => rw [utf8Cont2] at h; exact absurd h (by simp)
  | cons t2 rest2 =>
    rw [utf8Cont2] at h
    cases hc : utf8Cont t2 with
    | none => rw [hc] at h; exact absurd h (by simp)
    | some v2 =>
      rw [hc, Option.map_some'] at h
      injection h with h1
      injection h1 with _ h2
      subst h2
      simp

lemma utf8Cont3_length (b1 : Nat) (rest : List PDTok) (n : Nat) (r : List PDTok)
    (h : utf8Cont3 b1 rest = some (n, r)) : r.length ≤ rest.length := by
  match rest with
  | [] => simp [utf8Cont3] at h
  | [t2] => simp [utf8Cont3] at h
  | t2 :: t3 :: rest2 =>
    rw [utf8Cont3] at h
    cases hc : utf8Cont t2 with
    | none => rw [hc] at h; exact absurd h (by simp)
    | some v2 =>
      rw [hc, Option.some_bind] at h
      cases hc3 : utf8Cont t3 with
      | none => rw [hc3] at h; exact absurd h (by simp)
      | some v3 =>
        rw [hc3, Option.some_bind] at h
        split at h
        · injection h with h1
          injection h1 with _ h2
          subst h2
          simp
          omega
        · exact absurd h (by simp)

lemma utf8Cont4_length (b1 : Nat) (rest : List PDTok) (n : Nat) (r : List PDTok)
    (h : utf8Cont4 b1 rest = some (n, r)) : r.length ≤ rest.length := by
  match rest with
  | [] => simp [utf8Cont4] at h
  | [t2] => simp [utf8Cont4] at h
  | [t2, t3] => simp [utf8Cont4] at h
  | t2 :: t3 :: t4 :: rest2 =>
    rw [utf8Cont4] at h
    cases hc : utf8Cont t2 with
    | none => rw [hc] at h; exact absurd h (by simp)
    | some v2 =>
      rw [hc, Option.some_bind] at h
      cases hc3 : utf8Cont t3 with
      | none => rw [hc3] at h; exact absurd h (by simp)
      | some v3 =>
        rw [hc3, Option.some_bind] at h
        cases hc4 : utf8Cont t4 with
        | none => rw [hc4] at h; exact absurd h (by simp)
        | some v4 =>
          rw [hc4, Option.some_bind] at h
          split at h
          · injection h with h1
            injection h1 with _ h2
            subst h2
            simp
            omega
          · exact absurd h (by simp)

lemma utf8Step_length (b1 : Nat) (rest : List PDTok) (n : Nat) (r : List PDTok)
    (h : utf8Step b1 rest = some (n, r)) : r.length ≤ rest.length := by
  rw [utf8Step] at h
  split at h
  · injection h with h1
    injection h1 with _ h2
    subst h2
    exact Nat.le_refl _
  · split at h
    · exact absurd h (by simp)
    · split at h
      · exact utf8Cont2_length b1 rest n r h
      · split at h
        · exact utf8Cont3_length b1 rest n r h
        · split at h
          · exact utf8Cont4_length b1 rest n r h
          · exact absurd h (by simp)

/-- Second stage of `decodeURIComponent`: raw tokens stand for themselves;
a byte token must lead a valid UTF-8 sequence, decoded by `utf8Step`. -/
def utf8DecodeToks : List PDTok → Option (List Char)
  | [] => some []
  | .raw c :: rest => (utf8DecodeToks rest).map (fun t => c :: t)
  | .byte b1 :: rest =>
    match h : utf8Step b1 rest with
    | some (n, rest2) => (utf8DecodeToks rest2).map (fun t => Char.ofNat n :: t)
    | none => none
termination_by s => s.length
decreasing_by
  all_goals simp only [List.length_cons]
  · omega
  · have := utf8Step_length _ _ _ _ h
    omega

/-- `decodeURIComponent`, as `evaluateHTML` applies it to the stripped
data URL: read every `%XY` escape into a byte (stage one), then decode the
byte runs as strict UTF-8 (stage two); any malformed escape, malformed
sequence, overlong encoding, surrogate or out-of-range value fails. -/
def percentDecode (s : List Char) : Option (List Char) :=
  (tokenizePercent s).bind utf8DecodeToks

/-- The token string `encodeURIComponent` produces for one character. -/
def charToks (c : Char) : List PDTok :=
  if isURIUnreserved c then [PDTok.raw c]
  else (utf8Bytes c.toNat).map PDTok.byte

/-- The token string `encodeURIComponent` produces for a text. -/
def encodeToks (s : List Char) : List PDTok := (s.map charToks).flatten

lemma hexDigitVal_hexDigitChar : ∀ d < 16, hexDigitVal (hexDigitChar d) = some d := by
  decide

lemma escVal_escape (b : Nat) (hb : b < 256) :
    escVal (hexDigitChar (b / 16)) (hexDigitChar (b % 16)) = some b := by
  rw [escVal, hexDigitVal_hexDigitChar (b / 16) (by omega),
    hexDigitVal_hexDigitChar (b % 16) (by omega)]
  exact congrArg some (by omega)

lemma char_toNat_valid (c : Char) :
    c.toNat < 0xD800 ∨ (0xDFFF < c.toNat ∧ c.toNat < 0x110000) := by
  rcases c.valid with h | ⟨h1, h2⟩
  · exact Or.inl (UInt32.toNat_lt_of_lt (by decide) h)
  · exact Or.inr ⟨UInt32.lt_toNat_of_lt (by decide) h1,
      UInt32.toNat_lt_of_lt (by decide) h2⟩

lemma tokenizePercent_cons_ne (c : Char) (hc : c ≠ '%') (rest : List Char) :
    tokenizePercent (c :: rest)
      = (tokenizePercent rest).map (fun ts => PDTok.raw c :: ts) := by
  rw [tokenizePercent.eq_def]
  split
  · rename_i h
    exact absurd h (by simp)
  · rename_i h
    injection h with h1 _
    exact absurd h1 hc
  · rename_i h1 h2 h3
    injection h3 with h4 _
    exact absurd h4 hc
  · rename_i h1 h2 h3
    injection h3 with h4 h5
    rw [h4, h5]

lemma tokenizePercent_escape (b : Nat) (hb : b < 256) (rest : List Char) :
    tokenizePercent (escapeByte b ++ rest)
      = (tokenizePercent rest).map (fun ts => PDTok.byte b :: ts) := by
  rw [escapeByte]
  simp only [List.cons_append, List.nil_append]
  rw [tokenizePercent]
  rw [escVal_escape b hb]
  rw [Option.some_bind]

lemma tokenizePercent_escapes (bs : List Nat) (hbs : ∀ b ∈ bs, b < 256)
    (rest : List Char) :
    tokenizePercent ((bs.map escapeByte).flatten ++ rest)
      = (tokenizePercent rest).map (fun ts => bs.map PDTok.byte ++ ts) := by
  induction bs with
  | nil => simp
  | cons b bs ih =>
    simp only [List.map_cons, List.flatten_cons, List.append_assoc]
    rw [tokenizePercent_escape b (hbs b (List.mem_cons_self _ _))]
    rw [ih (fun x hx => hbs x (List.mem_cons_of_mem _ hx))]
    rw [Option.map_map]
    rfl

lemma utf8Bytes_lt (c : Char) : ∀ b ∈ utf8Bytes c.toNat, b < 256 := by
  have hval := char_toNat_valid c
  intro b hb
  rw [utf8Bytes] at hb
  split at hb <;> [skip; split at hb] <;> [skip; skip; split at hb]
  all_goals simp only [List.mem_cons, List.not_mem_nil, or_false] at hb
  all_goals omega

lemma tokenizePercent_charToks (c : Char) (rest : List Char) :
    tokenizePercent (percentEncodeChar c ++ rest)
      = (tokenizePercent rest).map (fun ts => charToks c ++ ts) := by
  by_cases hu : isURIUnreserved c
  · rw [percentEncodeChar, if_pos hu, charToks, if_pos hu,
      List.cons_append, List.nil_append]
    have hc : c ≠ '%' := fun h => by rw [h] at hu; exact absurd hu (by decide)
    rw [tokenizePercent_cons_ne c hc]
    rfl
  · rw [percentEncodeChar, if_neg hu, charToks, if_neg hu]
    exact tokenizePercent_escapes _ (utf8Bytes_lt c) rest

lemma tokenizePercent_nil : tokenizePercent [] = some [] := by
  rw [tokenizePercent]

lemma tokenizePercent_percentEncode (s : List Char) :
    tokenizePercent (percentEncode s) = some (encodeToks s) := by
  induction s with
  | nil =>
    simp only [percentEncode, encodeToks, List.map_nil, List.flatten_nil]
    exact tokenizePercent_nil
  | cons c s ih =>
    simp only [percentEncode, encodeToks, List.map_cons, List.flatten_cons]
    have : (s.map percentEncodeChar).flatten = percentEncode s := rfl
    rw [this, tokenizePercent_charToks, ih, Option.map_some']
    rfl


lemma utf8DecodeToks_nil : utf8DecodeToks [] = some [] := by
  rw [utf8DecodeToks]

lemma utf8DecodeToks_raw (c : Char) (rest : List PDTok) :
    utf8DecodeToks (PDTok.raw c :: rest)
      = (utf8DecodeToks rest).map (fun t => c :: t) := by
  rw [utf8DecodeToks]

lemma utf8DecodeToks_byte_step (b1 n : Nat) (rest rest2 : List PDTok)
    (hs : utf8Step b1 rest = some (n, rest2)) :
    utf8DecodeToks (PDTok.byte b1 :: rest)
      = (utf8DecodeToks rest2).map (fun t => Char.ofNat n :: t) := by
  rw [utf8DecodeToks]
  split
  · rename_i n' rest2' heq
    rw [hs] at heq
    injection heq with h1
    injection h1 with h2 h3
    rw [h2, h3]
  · rename_i heq
    rw [hs] at heq
    exact absurd heq (by simp)

lemma utf8Step_one (n : Nat) (hn : n < 0x80) (rest : List PDTok) :
    utf8Step n rest = some (n, rest) := by
  rw [utf8Step, if_pos hn]

lemma utf8Step_two (n : Nat) (hn1 : 0x80 ≤ n) (hn2 : n < 0x800) (rest : List PDTok) :
    utf8Step (0xC0 + n / 64) (PDTok.byte (0x80 + n % 64) :: rest)
      = some (n, rest) := by
  rw [utf8Step]
  rw [if_neg (by omega)]
  rw [if_neg (by omega)]
  rw [if_pos (by omega)]
  rw [utf8Cont2, utf8Cont]
  rw [if_pos (by omega)]
  rw [Option.map_some']
  refine congrArg some ?_
  rw [Prod.mk.injEq]
  exact ⟨by omega, rfl⟩

lemma utf8Step_three (n : Nat) (hn1 : 0x800 ≤ n) (hn2 : n < 0x10000)
    (hsur : ¬(0xD800 ≤ n ∧ n ≤ 0xDFFF)) (rest : List PDTok) :
    utf8Step (0xE0 + n / 4096)
        (PDTok.byte (0x80 + n / 64 % 64) :: PDTok.byte (0x80 + n % 64) :: rest)
      = some (n, rest) := by
  rw [utf8Step]
  rw [if_neg (by omega)]
  rw [if_neg (by omega)]
  rw [if_neg (by omega)]
  rw [if_pos (by omega)]
  rw [utf8Cont3, utf8Cont]
  rw [if_pos (by omega)]
  rw [Option.some_bind, utf8Cont]
  rw [if_pos (by omega)]
  rw [Option.some_bind]
  rw [if_pos (by omega)]
  refine congrArg some ?_
  rw [Prod.mk.injEq]
  exact ⟨by omega, rfl⟩

lemma utf8Step_four (n : Nat) (hn1 : 0x10000 ≤ n) (hn2 : n < 0x110000)
    (rest : List PDTok) :
    utf8Step (0xF0 + n / 262144)
        (PDTok.byte (0x80 + n / 4096 % 64) :: PDTok.byte (0x80 + n / 64 % 64)
          :: PDTok.byte (0x80 + n % 64) :: rest)
      = some (n, rest) := by
  rw [utf8Step]
  rw [if_neg (by omega)]
  rw [if_neg (by omega)]
  rw [if_neg (by omega)]
  rw [if_neg (by omega)]
  rw [if_pos (by omega)]
  rw [utf8Cont4, utf8Cont]
  rw [if_pos (by omega)]
  rw [Option.some_bind, utf8Cont]
  rw [if_pos (by omega)]
  rw [Option.some_bind, utf8Cont]
  rw [if_pos (by omega)]
  rw [Option.some_bind]
  rw [if_pos (by omega)]
  refine congrArg some ?_
  rw [Prod.mk.injEq]
  exact ⟨by omega, rfl⟩

lemma utf8DecodeToks_charToks (c : Char) (rest : List PDTok) :
    utf8DecodeToks (charToks c ++ rest)
      = (utf8DecodeToks rest).map (fun t => c :: t) := by
  have hval := char_toNat_valid c
  by_cases hu : isURIUnreserved c
  · rw [charToks, if_pos hu, List.cons_append, List.nil_append,
      utf8DecodeToks_raw]
  · rw [charToks, if_neg hu]
    by_cases ha : c.toNat < 0x80
    · rw [utf8Bytes, if_pos ha]
      simp only [List.map_cons, List.map_nil, List.cons_append, List.nil_append]
      rw [utf8DecodeToks_byte_step c.toNat c.toNat rest rest
        (utf8Step_one c.toNat ha rest), Char.ofNat_toNat]
    · by_cases hb : c.toNat < 0x800
      · rw [utf8Bytes, if_neg ha, if_pos hb]
        simp only [List.map_cons, List.map_nil, List.cons_append, List.nil_append]
        rw [utf8DecodeToks_byte_step _ c.toNat _ rest
          (utf8Step_two c.toNat (by omega) hb rest), Char.ofNat_toNat]
      · by_cases hcc : c.toNat < 0x10000
        · rw [utf8Bytes, if_neg ha, if_neg hb, if_pos hcc]
          simp only [List.map_cons, List.map_nil, List.cons_append, List.nil_append]
          rw [utf8DecodeToks_byte_step _ c.toNat _ rest
            (utf8Step_three c.toNat (by omega) hcc (by omega) rest), Char.ofNat_toNat]
        · rw [utf8Bytes, if_neg ha, if_neg hb, if_neg hcc]
          simp only [List.map_cons, List.map_nil, List.cons_append, List.nil_append]
          rw [utf8DecodeToks_byte_step _ c.toNat _ rest
            (utf8Step_four c.toNat (by omega) (by omega) rest), Char.ofNat_toNat]

lemma utf8DecodeToks_encodeToks (s : List Char) :
    utf8DecodeToks (encodeToks s) = some s := by
  induction s with
  | nil =>
    simp only [encodeToks, List.map_nil, List.flatten_nil]
    exact utf8DecodeToks_nil
  | cons c s ih =>
    simp only [encodeToks, List.map_cons, List.flatten_cons]
    have : (s.map charToks).flatten = encodeToks s := rfl
    rw [this, utf8DecodeToks_charToks, ih, Option.map_some']

lemma percentDecode_percentEncode (s : List Char) :
    percentDecode (percentEncode s) = some s := by
  rw [percentDecode, tokenizePercent_percentEncode, Option.some_bind,
    utf8DecodeToks_encodeToks]

/-- The anchored regex `^data:\w+\/\w+;charset=utf-8,` of
`evaluateHTML`: consume `data:`, a nonempty word-character run, `/`, a
nonempty word-character run, then `;charset=utf-8,`; return what follows.
Greedy `\w+` equals the maximal run because the characters required next
(`/`, `;`) are not word characters. -/
def matchDataURLPrefix (s : List Char) : Option (List Char) :=
  match dropLiteral (lc "data:") s with
  | none => none
  | some s1 =>
    match s1.takeWhile isWordChar, s1.dropWhile isWordChar with
    | [], _ => none
    | _ :: _, r1 =>
      match r1 with
      | '/' :: s2 =>
        match s2.takeWhile isWordChar, s2.dropWhile isWordChar with
        | [], _ => none
        | _ :: _, r2 => dropLiteral (lc ";charset=utf-8,") r2
      | _ => none

/-- `dataURL.replace(/^data:\w+\/\w+;charset=utf-8,/, "")`: drop the
prefix when it matches, otherwise leave the string unchanged. -/
def stripDataURLPrefix (s : List Char) : List Char :=
  (matchDataURLPrefix s).getD s

/-- The modern extraction path after `rsDocToDataURL("text/html")`
returns: strip the data-URL prefix, then percent-decode the remainder. -/
def modernExtractHTML (dataURL : List Char) : Option (List Char) :=
  percentDecode (stripDataURLPrefix dataURL)

lemma matchDataURLPrefix_html (t : List Char) :
    matchDataURLPrefix (lc "data:text/html;charset=utf-8," ++ t) = some t := rfl

/-- C6: for every HTML text `h`, the modern extraction path applied to
`data:text/html;charset=utf-8,` followed by the percent-encoding of `h`
recovers exactly `h`. -/
theorem dataURL_roundTrip (h : List Char) :
    modernExtractHTML (lc "data:text/html;charset=utf-8," ++ percentEncode h)
      = some h := by
  rw [modernExtractHTML, stripDataURLPrefix, matchDataURLPrefix_html,
    Option.getD_some, percentDecode_percentEncode]

/-- Witness for C3 (amended): a rejected request (resource type image) is
passed through unmodified. -/
theorem isRespecScript_characterization_witness :
    requestInterceptor reqImage = InterceptOutcome.continueRequest :=
  (isRespecScript_characterization reqImage).2 (by decide)

end Respec
